import Mathlib

/-!
# TinyCam client — verification of the session-protocol core

A shallow embedding, in Lean 4, of the protocol-relevant parts of the
TinyCam streaming client (the two Python variants
`TinyCamClientExample/stream_downloader.py` and
`TinyCamClientExample/Python/tinycam.py`), together with theorems that
settle the specification claims about it.

Conventions of the embedding:

* byte strings are `List Nat`, every entry `< 256` where it matters;
* Python `str` values that only carry protocol text are Lean `String`s,
  except in the base64 section where strings are `List Nat` of
  code points (the normalisation there is character arithmetic);
* the external AEAD primitive (`cryptography`'s `AESGCM.decrypt`) is a
  parameter `dec : List Nat → List Nat → List Nat → Option (List Nat)`
  (nonce, ciphertext-plus-tag, associated data); `none` models the
  `InvalidTag` exception;
* Python floats that only ever hold small dyadic values (the reconnect
  backoff, monotonic clock readings) are modelled as `ℚ`, on which the
  arithmetic performed by the code (`*2.0`, `min · 10.0`, comparison)
  is exact.
-/

namespace TinyCam

/-! ## Reconnect loop and backoff (`main_async`, both variants)

Source (`tinycam.py` lines 445–455, `stream_downloader.py` 300–311):

```
backoff = 1.0
while True:
    try:
        await client.stream_to_file(args.out)
        backoff = 1.0
    except (websockets.ConnectionClosed, websockets.InvalidStatusCode) as e:
        log.warning(...)
    except Exception as e:
        log.error(...)
    await asyncio.sleep(min(backoff, 10.0))
    backoff = min(backoff * 2.0, 10.0)
```
-/

/-- Outcome of one `stream_to_file` attempt: whether it raised an
exception (any exception caught by the two `except` arms), and how many
frames it successfully decrypted before ending. -/
structure Attempt where
  raised : Bool
  framesDecrypted : Nat
deriving DecidableEq, Repr

/-- One iteration of the outer reconnect loop: given the current
`backoff` and the attempt's outcome, returns the duration slept
(`min(backoff, 10.0)`) and the next value of `backoff`
(`min(backoff * 2.0, 10.0)`).  `backoff = 1.0` is executed only when
the attempt returns without raising. -/
def loopStep (backoff : ℚ) (a : Attempt) : ℚ × ℚ :=
  let b1 : ℚ := if a.raised then backoff else 1
  (min b1 10, min (b1 * 2) 10)

/-- The sequence of sleep durations produced by the reconnect loop,
starting from a given `backoff` value, over a finite prefix of attempt
outcomes.  The loop itself starts with `backoff = 1.0`. -/
def loopWaits (backoff : ℚ) : List Attempt → List ℚ
  | [] => []
  | a :: rest => (loopStep backoff a).1 :: loopWaits (loopStep backoff a).2 rest

/-! ## Handshake: exp mismatch and associated data

Source (`tinycam.py` lines 313–334; `stream_downloader.py` 198–214).
After parsing the server hello, both variants run

```
exp_srv = int(hello["exp"])
if exp_srv != exp:
    self.log.warning("server exp mismatch: %s != %s", exp_srv, exp)
...
aad = f"{conn_b64}|{exp}|{codec}|{w}x{h}|{fps}".encode("utf-8")
```

Note the f-string interpolates `exp` (the client's requested expiry),
not `exp_srv`. -/

/-- Fields of the server hello that feed key derivation and associated
data (`snonce` is consumed separately by HKDF). -/
structure Hello where
  connB64 : String
  codecField : Option String
  w : Nat
  h : Nat
  fps : Nat
  expSrv : Nat
deriving DecidableEq, Repr

/-- The associated-data string `f"{conn_b64}|{exp}|{codec}|{w}x{h}|{fps}"`
as both variants build it, parameterised by the expiry value actually
interpolated. -/
def aadString (connB64 : String) (e : Nat) (codec : String) (w h fps : Nat) : String :=
  connB64 ++ "|" ++ toString e ++ "|" ++ codec ++ "|" ++
    toString w ++ "x" ++ toString h ++ "|" ++ toString fps

/-- Post-hello processing common to both variants: whether the exp
mismatch warning fires, and the associated-data string handed to the
frame loop.  `clientExp` is the `exp` the client put in the URL;
`codecHint` is the configured fallback used when the hello lacks a
`codec` field. -/
def helloProcess (clientExp : Nat) (codecHint : String) (hello : Hello) : Bool × String :=
  let codec := hello.codecField.getD codecHint
  let warned : Bool := hello.expSrv != clientExp
  (warned, aadString hello.connB64 clientExp codec hello.w hello.h hello.fps)

/-- The `start` message payload's `exp` field (`tinycam.py` line 325):
the tinycam variant echoes the server-confirmed value back. -/
def startExp (_clientExp : Nat) (hello : Hello) : Nat :=
  hello.expSrv

end TinyCam

namespace TinyCam

/-! ### Theorems for claims C1 and C5 -/

/-- C1, counterexample.  With a requested `exp = 100` and a server hello
carrying `exp = 200`, the mismatch warning fires, but the associated
data both variants build interpolates the client's requested `100`,
not the server-confirmed `200`: the claim that the AEAD associated data
is built from the server-confirmed exp is false. -/
theorem c1_counterexample :
    (helloProcess 100 "vp9" ⟨"QUJDRA==", some "vp9", 1280, 720, 30, 200⟩).1 = true ∧
    (helloProcess 100 "vp9" ⟨"QUJDRA==", some "vp9", 1280, 720, 30, 200⟩).2 ≠
      aadString "QUJDRA==" 200 "vp9" 1280 720 30 ∧
    (helloProcess 100 "vp9" ⟨"QUJDRA==", some "vp9", 1280, 720, 30, 200⟩).2 =
      aadString "QUJDRA==" 100 "vp9" 1280 720 30 := by
  refine ⟨by decide, by decide, rfl⟩

/-- C1, amended.  When the server's hello carries an exp different from
the client's requested exp, the handshake logs a mismatch warning and
proceeds, and the AssociatedData string used as AEAD additional
authenticated data is built from the client's *requested* exp value
(not the server-confirmed one), along with the negotiated conn, codec,
width x height and fps; the server-confirmed exp is only echoed back in
the `start` message. -/
theorem c1_amended (clientExp : Nat) (codecHint : String) (hello : Hello) :
    ((helloProcess clientExp codecHint hello).1 = true ↔ hello.expSrv ≠ clientExp) ∧
    (helloProcess clientExp codecHint hello).2 =
      aadString hello.connB64 clientExp (hello.codecField.getD codecHint)
        hello.w hello.h hello.fps ∧
    startExp clientExp hello = hello.expSrv := by
  refine ⟨?_, rfl, rfl⟩
  simp [helloProcess]

/-- C1 amended witness at a concrete handshake. -/
theorem c1_amended_witness :
    (helloProcess 100 "vp9" ⟨"Zm9v", none, 640, 480, 25, 100⟩).1 = false ∧
    (helloProcess 100 "vp9" ⟨"Zm9v", none, 640, 480, 25, 100⟩).2 =
      aadString "Zm9v" 100 "vp9" 640 480 25 :=
  ⟨by decide, (c1_amended 100 "vp9" ⟨"Zm9v", none, 640, 480, 25, 100⟩).2.1⟩

/-- C5, counterexample.  Three attempts: two plain failures, then a
failure that had decrypted one frame.  The claim predicts the backoff is
reset to 1 after the third attempt, so the wait after a fourth failed
attempt would be 1 second; the code never resets on a raising attempt
and waits 8 seconds. -/
theorem c5_counterexample :
    loopWaits 1 [⟨true, 0⟩, ⟨true, 0⟩, ⟨true, 1⟩, ⟨true, 0⟩] = [1, 2, 4, 8] ∧
    (8 : ℚ) ≠ 1 := by
  constructor
  · norm_num [loopWaits, loopStep]
  · norm_num

/-- Capping before or after multiplying by a power of two gives the same
capped wait. -/
theorem min_cap_pow (x : ℚ) (i : Nat) :
    min (min x 10 * 2 ^ i) 10 = min (x * 2 ^ i) 10 := by
  have h1 : (1 : ℚ) ≤ 2 ^ i := by
    calc (1 : ℚ) = 1 ^ i := (one_pow i).symm
    _ ≤ 2 ^ i := by
      apply pow_le_pow_left₀ <;> norm_num
  rcases le_total x 10 with h | h
  · rw [min_eq_left h]
  · rw [min_eq_right h]
    rw [min_eq_right (by nlinarith), min_eq_right (by nlinarith)]

/-- Wait sequence along a run of raising attempts, from an arbitrary
starting backoff. -/
theorem loopWaits_replicate_raised (n : Nat) : ∀ b : ℚ,
    loopWaits b (List.replicate n ⟨true, 0⟩) =
      (List.range n).map fun i => min (b * 2 ^ i) 10 := by
  induction n with
  | zero => intro b; simp [loopWaits]
  | succ n ih =>
    intro b
    rw [List.replicate_succ, List.range_succ_eq_map]
    show min b 10 :: loopWaits (min (b * 2) 10) _ = _
    rw [ih (min (b * 2) 10)]
    simp only [List.map_cons, pow_zero, mul_one, List.map_map]
    congr 1
    refine List.map_congr_left fun i _ => ?_
    show min (min (b * 2) 10 * 2 ^ i) 10 = min (b * 2 ^ (i + 1)) 10
    rw [min_cap_pow, pow_succ]
    ring_nf

/-- The step function only reads the `raised` flag of an attempt. -/
theorem loopStep_raised_only (b : ℚ) (a a' : Attempt)
    (h : a.raised = a'.raised) : loopStep b a = loopStep b a' := by
  simp only [loopStep, h]

/-- C5, amended.  After every attempt the loop waits `min(backoff, 10)`
seconds; backoff starts at 1 second and is doubled (capped at 10) after
every attempt that raised, so a run of consecutive failures waits
`min(2^i, 10)` seconds after the i-th of them; backoff is reset to 1
only by an attempt that returns without raising — the number of frames
an attempt decrypted before failing has no effect whatsoever on the
wait sequence. -/
theorem c5_amended :
    (∀ n : Nat, loopWaits 1 (List.replicate n ⟨true, 0⟩) =
      (List.range n).map fun i => min ((2 : ℚ) ^ i) 10) ∧
    (∀ (b : ℚ) (a : Attempt), a.raised = false → loopStep b a = (1, 2)) ∧
    (∀ xs ys : List Attempt, xs.map Attempt.raised = ys.map Attempt.raised →
      ∀ b : ℚ, loopWaits b xs = loopWaits b ys) := by
  refine ⟨?_, ?_, ?_⟩
  · intro n
    rw [loopWaits_replicate_raised n 1]
    simp
  · intro b a h
    simp only [loopStep, h]
    norm_num
  · intro xs
    induction xs with
    | nil =>
      intro ys h b
      cases ys with
      | nil => rfl
      | cons y ys => simp at h
    | cons x xs ih =>
      intro ys h b
      cases ys with
      | nil => simp at h
      | cons y ys =>
        simp only [List.map_cons, List.cons.injEq] at h
        show (loopStep b x).1 :: _ = (loopStep b y).1 :: _
        rw [loopStep_raised_only b x y h.1, ih ys h.2]

/-- C5 amended witness: two attempt runs with identical raised-flags but
different decrypted-frame counts produce the same wait sequence. -/
theorem c5_amended_witness :
    ([⟨true, 2⟩, ⟨false, 0⟩] : List Attempt).map Attempt.raised =
      ([⟨true, 0⟩, ⟨false, 5⟩] : List Attempt).map Attempt.raised ∧
    loopWaits 1 [⟨true, 2⟩, ⟨false, 0⟩] = loopWaits 1 [⟨true, 0⟩, ⟨false, 5⟩] :=
  ⟨by decide, c5_amended.2.2 [⟨true, 2⟩, ⟨false, 0⟩] [⟨true, 0⟩, ⟨false, 5⟩] (by decide) 1⟩

/-! ## The receive loop: frame parsing, replay check, decryption

`stream_downloader.py` lines 216–246 (`iter_plain_chunks`) and
`tinycam.py` lines 344–382 (`get_chunks`).  Both split an inbound binary
message `b` as `nonce = b[0:12]`, `tag = b[12:28]`, `ct = b[28:]`,
validate `nonce[:4] == conn_id`, extract
`counter = struct.unpack(">Q", nonce[4:12])`, and call
`aesgcm.decrypt(nonce, ct + tag, aad)`.  Only the `stream_downloader`
variant validates `counter > last_counter`; the tinycam variant computes
`counter` and never uses it.  The tinycam variant additionally carries a
`first_bin_seen` flag and a `first_bin_deadline` check placed *after*
the flag is set.

The AEAD primitive is external (`cryptography`'s AESGCM); it enters the
model as the parameter `dec nonce ctTag aad`, with `none` for an
authentication failure (which both variants re-raise as fatal). -/

/-- An inbound websocket message: text (`str`) or binary (`bytes`). -/
inductive Msg where
  | text (s : String)
  | binary (b : List Nat)
deriving DecidableEq, Repr

/-- `struct.unpack(">Q", b)[0]`: big-endian unsigned integer of an
8-byte slice (`be_u64` in both sources). -/
def be_u64 (b : List Nat) : Nat :=
  b.foldl (fun acc x => acc * 256 + x) 0

/-- What one iteration of `iter_plain_chunks`' receive loop does with a
message, up to the external AEAD call: log-and-continue, drop a short
frame, raise a fatal `RuntimeError`, or proceed to
`aesgcm.decrypt(nonce, ct + tag, aad)`. -/
inductive SDRes where
  | textLogged
  | shortSkipped
  | fatal (msg : String)
  | decrypt (nonce ctTag aad : List Nat)
deriving DecidableEq, Repr

/-- One iteration of the `stream_downloader` receive loop
(lines 218–238), from the current `last_counter`; returns the action
taken and the new `last_counter`. -/
def sdStep (connId aad : List Nat) (lastCounter : Nat) (m : Msg) : SDRes × Nat :=
  match m with
  | .text _ => (.textLogged, lastCounter)
  | .binary b =>
    if b.length < 28 then (.shortSkipped, lastCounter)
    else
      let nonce := b.take 12
      let tag := (b.drop 12).take 16
      let ct := b.drop 28
      if nonce.take 4 ≠ connId then (.fatal "nonce connId mismatch", lastCounter)
      else
        let counter := be_u64 (nonce.drop 4)
        if counter ≤ lastCounter then
          (.fatal ("counter not increasing (" ++ toString counter ++ " <= " ++
            toString lastCounter ++ ")"), lastCounter)
        else (.decrypt nonce (ct ++ tag) aad, counter)

/-- How a session run over a finite message prefix ends: the prefix was
consumed without a fatal error, or a fatal error terminated it. -/
inductive RunEnd where
  | ok
  | fatal (msg : String)
deriving DecidableEq, Repr

/-- The `stream_downloader` receive loop over a list of messages:
yielded plaintexts and the terminal outcome.  `dec` is the AEAD
decryption oracle; a `none` result is the re-raised decrypt error. -/
def sdRun (dec : List Nat → List Nat → List Nat → Option (List Nat))
    (connId aad : List Nat) (lastCounter : Nat) :
    List Msg → List (List Nat) × RunEnd
  | [] => ([], .ok)
  | m :: ms =>
    match sdStep connId aad lastCounter m with
    | (.textLogged, lc) => sdRun dec connId aad lc ms
    | (.shortSkipped, lc) => sdRun dec connId aad lc ms
    | (.fatal e, _) => ([], .fatal e)
    | (.decrypt nonce ctTag ad, lc) =>
      match dec nonce ctTag ad with
      | none => ([], .fatal "decrypt error")
      | some plain =>
        let r := sdRun dec connId aad lc ms
        (plain :: r.1, r.2)

/-- What one iteration of tinycam's `get_chunks` receive loop does with
a message.  `yieldedThenFatal` is the path that yields a plaintext and
then raises the first-binary-frame timeout error. -/
inductive TCRes where
  | textLogged
  | shortSkipped
  | fatal (msg : String)
  | yielded (plain : List Nat)
  | yieldedThenFatal (plain : List Nat) (msg : String)
deriving DecidableEq, Repr

/-- One iteration of the tinycam receive loop (`tinycam.py` lines
345–382), from the current `first_bin_seen` flag, at monotonic time
`now` with the fixed `first_bin_deadline`.  The counter is extracted
(`counter = be_u64(nonce[4:12])`) but, as in the source, never
validated; the `if first_bin_seen: pass` statement has no effect. -/
def tcStep (dec : List Nat → List Nat → List Nat → Option (List Nat))
    (connId aad : List Nat) (firstBinSeen : Bool) (now deadline : ℚ)
    (m : Msg) : TCRes × Bool :=
  match m with
  | .text _ => (.textLogged, firstBinSeen)
  | .binary b =>
    if b.length < 28 then (.shortSkipped, firstBinSeen)
    else
      let nonce := b.take 12
      let tag := (b.drop 12).take 16
      let ct := b.drop 28
      if nonce.take 4 ≠ connId then (.fatal "nonce connId mismatch", firstBinSeen)
      else
        let _counter := be_u64 (nonce.drop 4)
        match dec nonce (ct ++ tag) aad with
        | none => (.fatal "decrypt error", firstBinSeen)
        | some plain =>
          let fbs := if firstBinSeen = false then true else firstBinSeen
          if fbs = false ∧ deadline < now then
            (.yieldedThenFatal plain "first binary frame timeout", fbs)
          else (.yielded plain, fbs)

/-- The tinycam receive loop over a list of messages (all received at
time `now`, which only the unreachable deadline branch reads). -/
def tcRun (dec : List Nat → List Nat → List Nat → Option (List Nat))
    (connId aad : List Nat) (firstBinSeen : Bool) (now deadline : ℚ) :
    List Msg → List (List Nat) × RunEnd
  | [] => ([], .ok)
  | m :: ms =>
    match tcStep dec connId aad firstBinSeen now deadline m with
    | (.textLogged, f) => tcRun dec connId aad f now deadline ms
    | (.shortSkipped, f) => tcRun dec connId aad f now deadline ms
    | (.fatal e, _) => ([], .fatal e)
    | (.yielded p, f) =>
      let r := tcRun dec connId aad f now deadline ms
      (p :: r.1, r.2)
    | (.yieldedThenFatal p e, _) => ([p], .fatal e)

/-- An AEAD oracle that accepts every frame and returns a fixed
plaintext: the worst case for checks that must fire before
decryption. -/
def decConst (p : List Nat) : List Nat → List Nat → List Nat → Option (List Nat) :=
  fun _ _ _ => some p

/-- A 28-byte frame whose nonce is the all-zero connection id followed
by the 8-byte big-endian counter `k` (for `k < 256`), with an all-zero
tag and empty ciphertext. -/
def frameWithCounter (k : Nat) : List Nat :=
  [0, 0, 0, 0, 0, 0, 0, 0, 0, 0, 0, k] ++ List.replicate 16 0

/-- Does a tinycam loop action raise the first-binary-frame timeout
(i.e., yield and then raise)? -/
def isYieldedThenFatal : TCRes → Bool
  | .yieldedThenFatal _ _ => true
  | _ => false

end TinyCam

namespace TinyCam

/-! ### Theorems for claims C2, C6, C7, C8, C9 -/

/-- C2 (code bug in the tinycam variant).  On the frame sequence with
counters (5, 3), the `stream_downloader` loop decrypts the first frame
and terminates with a fatal counter-ordering error on the second, and
on (5, 6) it accepts both; but the tinycam variant accepts and decrypts
both frames of the (5, 3) replay sequence, because it never validates
the extracted counter. -/
theorem c2_replay_divergence :
    sdRun (decConst [42]) [0, 0, 0, 0] [] 0
        [.binary (frameWithCounter 5), .binary (frameWithCounter 3)] =
      ([[42]], .fatal "counter not increasing (3 <= 5)") ∧
    sdRun (decConst [42]) [0, 0, 0, 0] [] 0
        [.binary (frameWithCounter 5), .binary (frameWithCounter 6)] =
      ([[42], [42]], .ok) ∧
    tcRun (decConst [42]) [0, 0, 0, 0] [] false 0 1
        [.binary (frameWithCounter 5), .binary (frameWithCounter 3)] =
      ([[42], [42]], .ok) := by
  refine ⟨by decide, by decide, by decide⟩

/-- C6.  A binary frame of at least 28 bytes whose 4-byte nonce prefix
differs from the handshake's connection id makes both variants raise
the fatal connId-mismatch error, with the replay state unchanged, and
this happens before any AEAD decryption: the tinycam result is the same
for every decryption oracle `dec`, including ones that would
authenticate the frame. -/
theorem c6_connid_mismatch_fatal
    (dec : List Nat → List Nat → List Nat → Option (List Nat))
    (connId aad : List Nat) (lc : Nat) (fbs : Bool) (now deadline : ℚ)
    (b : List Nat) (hlen : 28 ≤ b.length) (hmis : b.take 4 ≠ connId) :
    sdStep connId aad lc (.binary b) = (.fatal "nonce connId mismatch", lc) ∧
    tcStep dec connId aad fbs now deadline (.binary b) =
      (.fatal "nonce connId mismatch", fbs) := by
  have h4 : (b.take 12).take 4 = b.take 4 := by
    simp [List.take_take]
  constructor
  · simp only [sdStep, h4]
    rw [if_neg (by omega), if_pos hmis]
  · simp only [tcStep, h4]
    rw [if_neg (by omega), if_pos hmis]

/-- C6 witness: a concrete 28-byte frame with nonce prefix `[1,0,0,0]`
against connection id `[0,0,0,0]` is rejected by both variants, even
though the oracle would have decrypted it. -/
theorem c6_witness :
    sdStep [0, 0, 0, 0] [] 7 (.binary (1 :: List.replicate 27 0)) =
      (.fatal "nonce connId mismatch", 7) ∧
    tcStep (decConst [42]) [0, 0, 0, 0] [] true 0 1
        (.binary (1 :: List.replicate 27 0)) =
      (.fatal "nonce connId mismatch", true) :=
  c6_connid_mismatch_fatal (decConst [42]) [0, 0, 0, 0] [] 7 true 0 1
    (1 :: List.replicate 27 0) (by decide) (by decide)

/-- C7.  A binary message shorter than 28 bytes is dropped by both
variants without an error: the step result is the non-fatal skip, the
mutable state (`last_counter`, `first_bin_seen`) is unchanged, and the
loop over a message list continues with the remaining messages,
yielding no plaintext for the short frame. -/
theorem c7_short_frame_skipped
    (dec : List Nat → List Nat → List Nat → Option (List Nat))
    (connId aad : List Nat) (lc : Nat) (fbs : Bool) (now deadline : ℚ)
    (b : List Nat) (hlen : b.length < 28) (ms : List Msg) :
    sdStep connId aad lc (.binary b) = (.shortSkipped, lc) ∧
    tcStep dec connId aad fbs now deadline (.binary b) = (.shortSkipped, fbs) ∧
    sdRun dec connId aad lc (.binary b :: ms) = sdRun dec connId aad lc ms ∧
    tcRun dec connId aad fbs now deadline (.binary b :: ms) =
      tcRun dec connId aad fbs now deadline ms := by
  have hsd : sdStep connId aad lc (.binary b) = (.shortSkipped, lc) := by
    simp only [sdStep]
    rw [if_pos hlen]
  have htc : tcStep dec connId aad fbs now deadline (.binary b) = (.shortSkipped, fbs) := by
    simp only [tcStep]
    rw [if_pos hlen]
  refine ⟨hsd, htc, ?_, ?_⟩
  · show (match sdStep connId aad lc (.binary b) with
      | (.textLogged, lc) => sdRun dec connId aad lc ms
      | (.shortSkipped, lc) => sdRun dec connId aad lc ms
      | (.fatal e, _) => ([], .fatal e)
      | (.decrypt nonce ctTag ad, lc) =>
        match dec nonce ctTag ad with
        | none => ([], .fatal "decrypt error")
        | some plain =>
          let r := sdRun dec connId aad lc ms
          (plain :: r.1, r.2)) = sdRun dec connId aad lc ms
    rw [hsd]
  · show (match tcStep dec connId aad fbs now deadline (.binary b) with
      | (.textLogged, f) => tcRun dec connId aad f now deadline ms
      | (.shortSkipped, f) => tcRun dec connId aad f now deadline ms
      | (.fatal e, _) => ([], .fatal e)
      | (.yielded p, f) =>
        let r := tcRun dec connId aad f now deadline ms
        (p :: r.1, r.2)
      | (.yieldedThenFatal p e, _) => ([p], .fatal e)) =
      tcRun dec connId aad fbs now deadline ms
    rw [htc]

/-- C7 witness: a concrete 5-byte frame is skipped with state intact
and the run continues past it. -/
theorem c7_witness :
    sdStep [0, 0, 0, 0] [] 3 (.binary [1, 2, 3, 4, 5]) = (.shortSkipped, 3) ∧
    tcStep (decConst [42]) [0, 0, 0, 0] [] false 0 1 (.binary [1, 2, 3, 4, 5]) =
      (.shortSkipped, false) ∧
    sdRun (decConst [42]) [0, 0, 0, 0] [] 3 [.binary [1, 2, 3, 4, 5]] =
      sdRun (decConst [42]) [0, 0, 0, 0] [] 3 [] ∧
    tcRun (decConst [42]) [0, 0, 0, 0] [] false 0 1 [.binary [1, 2, 3, 4, 5]] =
      tcRun (decConst [42]) [0, 0, 0, 0] [] false 0 1 [] :=
  c7_short_frame_skipped (decConst [42]) [0, 0, 0, 0] [] 3 false 0 1
    [1, 2, 3, 4, 5] (by decide) []

/-- C8.  In the tinycam variant, no iteration of the receive loop ever
takes the "first binary frame timeout" branch: whatever the flag value,
clock reading, deadline, message and decryption outcome, the deadline
condition `not first_bin_seen and now > first_bin_deadline` is
evaluated only after `first_bin_seen` has been set, so the
yield-then-raise action never occurs. -/
theorem c8_first_frame_timeout_unreachable
    (dec : List Nat → List Nat → List Nat → Option (List Nat))
    (connId aad : List Nat) (fbs : Bool) (now deadline : ℚ) (m : Msg) :
    isYieldedThenFatal (tcStep dec connId aad fbs now deadline m).1 = false := by
  cases m with
  | text s => rfl
  | binary b =>
    simp only [tcStep]
    split
    · rfl
    · split
      · rfl
      · cases hdec : dec (b.take 12) (b.drop 28 ++ (b.drop 12).take 16) aad with
        | none => rfl
        | some p => cases fbs <;> simp [isYieldedThenFatal]

/-- C9.  The `stream_downloader` replay state starts at 0 and the check
rejects `counter <= last_counter`, so a well-formed first frame carrying
counter 0 is immediately fatal, and any accepted frame's counter
strictly exceeds the previous state and hence is at least 1. -/
theorem c9_counter_zero_rejected :
    (∀ connId aad (b : List Nat), 28 ≤ b.length → b.take 4 = connId →
      be_u64 ((b.take 12).drop 4) = 0 →
      sdStep connId aad 0 (.binary b) = (.fatal "counter not increasing (0 <= 0)", 0)) ∧
    (∀ connId aad lc m nonce ctTag ad lc',
      sdStep connId aad lc m = (.decrypt nonce ctTag ad, lc') →
      lc < lc' ∧ 1 ≤ lc') := by
  constructor
  · intro connId aad b hlen hpre hctr
    have h4 : (b.take 12).take 4 = b.take 4 := by simp [List.take_take]
    simp only [sdStep, h4]
    rw [if_neg (by omega), if_neg (by simp [hpre]), hctr]
    rfl
  · intro connId aad lc m nonce ctTag ad lc' h
    cases m with
    | text s => simp [sdStep] at h
    | binary b =>
      simp only [sdStep] at h
      split at h
      · simp at h
      · split at h
        · simp at h
        · split at h
          · simp at h
          · rename_i hgt
            simp only [Prod.mk.injEq] at h
            omega

/-- C9 witness: the all-zero 28-byte frame (counter 0) is rejected from
the initial state, and the accepted counter-5 frame moves the state from
0 to 5 ≥ 1. -/
theorem c9_witness :
    sdStep [0, 0, 0, 0] [] 0 (.binary (List.replicate 28 0)) =
      (.fatal "counter not increasing (0 <= 0)", 0) ∧
    (0 < 5 ∧ 1 ≤ 5) :=
  ⟨c9_counter_zero_rejected.1 [0, 0, 0, 0] [] (List.replicate 28 0)
      (by decide) (by decide) (by decide),
    c9_counter_zero_rejected.2 [0, 0, 0, 0] [] 0
      (.binary (frameWithCounter 5)) [0, 0, 0, 0, 0, 0, 0, 0, 0, 0, 0, 5]
      (List.replicate 16 0) [] 5 (by decide)⟩

end TinyCam

namespace TinyCam

/-! ## SHA-256, HMAC-SHA256 and the HKDF of `hkdf_sha256`

`hashlib.sha256` and `hmac.new(·, ·, hashlib.sha256)` are Python
standard-library primitives; they are embedded here as the FIPS 180-4
SHA-256 compression over `Nat` words reduced modulo `2^32`, and the
RFC 2104 HMAC construction with the 64-byte block size, which is
exactly what those library calls compute.  `hkdf_sha256` itself is
translated from the sources (`tinycam.py` lines 56–65,
`stream_downloader.py` 51–60).  Python's `bytes([block_index])` raises
`ValueError` once `block_index` reaches 256 — i.e. for every requested
`length ≥ 8161` (beyond the RFC 5869 bound of `255·32 = 8160` bytes)
the function raises instead of returning output; `pyByte` embeds that
range check, and the loop and `hkdf_sha256` return `Option` values with
`none` for the propagated exception. -/

/-- `2^32`, the word modulus. -/
def M32 : Nat := 4294967296

/-- Right rotation of a 32-bit word. -/
def rotr32 (n x : Nat) : Nat :=
  (x / 2 ^ n + x % 2 ^ n * 2 ^ (32 - n)) % M32

/-- Logical right shift of a 32-bit word. -/
def shr32 (n x : Nat) : Nat := x / 2 ^ n

/-- Bitwise complement of a 32-bit word. -/
def not32 (x : Nat) : Nat := x ^^^ (M32 - 1)

/-- SHA-256 Σ₀. -/
def bSigma0 (x : Nat) : Nat := rotr32 2 x ^^^ rotr32 13 x ^^^ rotr32 22 x

/-- SHA-256 Σ₁. -/
def bSigma1 (x : Nat) : Nat := rotr32 6 x ^^^ rotr32 11 x ^^^ rotr32 25 x

/-- SHA-256 σ₀. -/
def sSigma0 (x : Nat) : Nat := rotr32 7 x ^^^ rotr32 18 x ^^^ shr32 3 x

/-- SHA-256 σ₁. -/
def sSigma1 (x : Nat) : Nat := rotr32 17 x ^^^ rotr32 19 x ^^^ shr32 10 x

/-- The 64 SHA-256 round constants. -/
def sha256K : List Nat := [
  1116352408, 1899447441, 3049323471, 3921009573,
  961987163, 1508970993, 2453635748, 2870763221,
  3624381080, 310598401, 607225278, 1426881987,
  1925078388, 2162078206, 2614888103, 3248222580,
  3835390401, 4022224774, 264347078, 604807628,
  770255983, 1249150122, 1555081692, 1996064986,
  2554220882, 2821834349, 2952996808, 3210313671,
  3336571891, 3584528711, 113926993, 338241895,
  666307205, 773529912, 1294757372, 1396182291,
  1695183700, 1986661051, 2177026350, 2456956037,
  2730485921, 2820302411, 3259730800, 3345764771,
  3516065817, 3600352804, 4094571909, 275423344,
  430227734, 506948616, 659060556, 883997877,
  958139571, 1322822218, 1537002063, 1747873779,
  1955562222, 2024104815, 2227730452, 2361852424,
  2428436474, 2756734187, 3204031479, 3329325298]

/-- The eight 32-bit working variables of SHA-256. -/
structure Sha256State where
  a : Nat
  b : Nat
  c : Nat
  d : Nat
  e : Nat
  f : Nat
  g : Nat
  h : Nat
deriving DecidableEq, Repr

/-- The SHA-256 initial hash value. -/
def sha256Init : Sha256State :=
  ⟨1779033703, 3144134277, 1013904242, 2773480762,
    1359893119, 2600822924, 528734635, 1541459225⟩

/-- One SHA-256 round for a given `(K[t], W[t])` pair. -/
def sha256Round (s : Sha256State) (kw : Nat × Nat) : Sha256State :=
  let ch := (s.e &&& s.f) ^^^ (not32 s.e &&& s.g)
  let t1 := (s.h + bSigma1 s.e + ch + kw.1 + kw.2) % M32
  let mj := (s.a &&& s.b) ^^^ (s.a &&& s.c) ^^^ (s.b &&& s.c)
  let t2 := (bSigma0 s.a + mj) % M32
  ⟨(t1 + t2) % M32, s.a, s.b, s.c, (s.d + t1) % M32, s.e, s.f, s.g⟩

/-- Message-schedule extension, keeping the words most-recent-first;
`n` more words are appended to the reversed schedule `acc`. -/
def scheduleRev (acc : List Nat) : Nat → List Nat
  | 0 => acc
  | n + 1 =>
    let w := (sSigma1 (acc.getD 1 0) + acc.getD 6 0 +
      sSigma0 (acc.getD 14 0) + acc.getD 15 0) % M32
    scheduleRev (w :: acc) n

/-- Compress one 16-word block into the running state. -/
def sha256Compress (st : Sha256State) (block : List Nat) : Sha256State :=
  let ws := (scheduleRev block.reverse 48).reverse
  let r := (sha256K.zip ws).foldl sha256Round st
  ⟨(st.a + r.a) % M32, (st.b + r.b) % M32, (st.c + r.c) % M32,
    (st.d + r.d) % M32, (st.e + r.e) % M32, (st.f + r.f) % M32,
    (st.g + r.g) % M32, (st.h + r.h) % M32⟩

/-- Four big-endian bytes to one 32-bit word. -/
def wordsOfBytes : List Nat → List Nat
  | a :: b :: c :: d :: rest => (((a * 256 + b) * 256 + c) * 256 + d) :: wordsOfBytes rest
  | _ => []

/-- One 32-bit word to four big-endian bytes. -/
def wordBytes (w : Nat) : List Nat :=
  [w / 16777216 % 256, w / 65536 % 256, w / 256 % 256, w % 256]

/-- A 64-bit value as eight big-endian bytes. -/
def be64Bytes (n : Nat) : List Nat :=
  [n / 2 ^ 56 % 256, n / 2 ^ 48 % 256, n / 2 ^ 40 % 256, n / 2 ^ 32 % 256,
    n / 2 ^ 24 % 256, n / 2 ^ 16 % 256, n / 2 ^ 8 % 256, n % 256]

/-- FIPS 180-4 padding: `0x80`, zeros to 56 mod 64, and the bit length. -/
def sha256Pad (m : List Nat) : List Nat :=
  m ++ 128 :: List.replicate ((119 - m.length % 64) % 64) 0 ++ be64Bytes (8 * m.length)

/-- Split a word list into 16-word blocks. -/
def blocksOf16 : List Nat → List (List Nat)
  | [] => []
  | w :: ws => ((w :: ws).take 16) :: blocksOf16 (ws.drop 15)
termination_by ws => ws.length
decreasing_by simp [List.length_drop]; omega

/-- SHA-256 of a byte string, as a 32-byte string
(`hashlib.sha256(m).digest()`). -/
def sha256 (m : List Nat) : List Nat :=
  let st := (blocksOf16 (wordsOfBytes (sha256Pad m))).foldl sha256Compress sha256Init
  wordBytes st.a ++ wordBytes st.b ++ wordBytes st.c ++ wordBytes st.d ++
    wordBytes st.e ++ wordBytes st.f ++ wordBytes st.g ++ wordBytes st.h

/-- A SHA-256 digest is 32 bytes. -/
theorem sha256_length (m : List Nat) : (sha256 m).length = 32 := by
  simp [sha256, wordBytes]

/-- RFC 2104 HMAC-SHA256 with key `key` over `msg`
(`hmac.new(key, msg, hashlib.sha256).digest()`). -/
def hmacSha256 (key msg : List Nat) : List Nat :=
  let k0 := if 64 < key.length then sha256 key else key
  let kp := k0 ++ List.replicate (64 - k0.length) 0
  sha256 ((kp.map fun b => b ^^^ 92) ++ sha256 ((kp.map fun b => b ^^^ 54) ++ msg))

/-- An HMAC-SHA256 tag is 32 bytes. -/
theorem hmacSha256_length (key msg : List Nat) :
    (hmacSha256 key msg).length = 32 :=
  sha256_length _

/-- `bytes([n])`: a one-byte string when `0 ≤ n ≤ 255`, otherwise the
`ValueError: bytes must be in range(0, 256)` that Python raises. -/
def pyByte (n : Nat) : Option (List Nat) :=
  if n < 256 then some [n] else none

/-- The `while len(okm) < length` expansion loop of `hkdf_sha256`
(both sources), carrying `okm`, the previous block `t` and
`block_index`; `none` is the `ValueError` from `bytes([block_index])`
once the block index exceeds 255. -/
def hkdfLoop (prk info : List Nat) (len : Nat) (okm t : List Nat)
    (blockIndex : Nat) : Option (List Nat) :=
  if okm.length < len then
    match pyByte blockIndex with
    | none => none
    | some bs =>
      let t2 := hmacSha256 prk (t ++ info ++ bs)
      hkdfLoop prk info len (okm ++ t2) t2 (blockIndex + 1)
  else some okm
termination_by len - okm.length
decreasing_by simp [List.length_append, hmacSha256_length]; omega

/-- `hkdf_sha256(ikm, salt, info, length)` from the sources: extract
`prk = HMAC-SHA256(salt, ikm)`, expand until `len(okm) >= length`,
return `okm[:length]`; the `ValueError` raised during expansion for
`length ≥ 8161` propagates as `none`. -/
def hkdf_sha256 (ikm salt info : List Nat) (len : Nat) : Option (List Nat) :=
  let prk := hmacSha256 salt ikm
  (hkdfLoop prk info len [] [] 1).map fun okm => okm.take len

/-- The spec's expansion blocks: `T(0)` empty,
`T(i) = HMAC-SHA256(prk, T(i-1) || info || byte(i))` (the block-index
byte is meaningful for `i ≤ 255`, the only indices the theorems below
instantiate). -/
def hkdfT (prk info : List Nat) : Nat → List Nat
  | 0 => []
  | i + 1 => hmacSha256 prk (hkdfT prk info i ++ info ++ [i + 1])

/-- The concatenation `T(1) || T(2) || … || T(n)` of the spec's
expansion blocks. -/
def hkdfChain (prk info : List Nat) : Nat → List Nat
  | 0 => []
  | n + 1 => hkdfChain prk info n ++ hkdfT prk info (n + 1)

/-- `T(1) || … || T(n)` has `32 n` bytes. -/
theorem hkdfChain_length (prk info : List Nat) (n : Nat) :
    (hkdfChain prk info n).length = 32 * n := by
  induction n with
  | zero => rfl
  | succ n ih =>
    show (hkdfChain prk info n ++ hkdfT prk info (n + 1)).length = _
    rw [List.length_append, ih]
    cases n with
    | zero => simp [hkdfT, hmacSha256_length]
    | succ k =>
      show 32 * (k + 1) + (hmacSha256 _ _).length = _
      rw [hmacSha256_length]
      ring

/-- The expansion loop, started after `k` completed blocks, succeeds
with the chain of `max k ⌈len/32⌉` blocks whenever the block indices
it needs stay within `bytes()` range. -/
theorem hkdfLoop_eq_chain (prk info : List Nat) (len : Nat)
    (hm : (len + 31) / 32 ≤ 255) :
    ∀ d k, (len + 31) / 32 ≤ k + d →
      hkdfLoop prk info len (hkdfChain prk info k) (hkdfT prk info k) (k + 1) =
        some (hkdfChain prk info (max k ((len + 31) / 32))) := by
  intro d
  induction d with
  | zero =>
    intro k hk
    rw [hkdfLoop, if_neg (by rw [hkdfChain_length]; omega)]
    rw [Nat.max_eq_left (by omega)]
  | succ d ih =>
    intro k hk
    by_cases hlt : (hkdfChain prk info k).length < len
    · rw [hkdfLoop, if_pos hlt]
      have hk255 : k + 1 < 256 := by
        rw [hkdfChain_length] at hlt
        omega
      rw [show pyByte (k + 1) = some [k + 1] from by
        simp only [pyByte]
        rw [if_pos hk255]]
      show hkdfLoop prk info len (hkdfChain prk info (k + 1))
        (hkdfT prk info (k + 1)) (k + 1 + 1) = _
      rw [ih (k + 1) (by omega)]
      rw [hkdfChain_length] at hlt
      congr 2
      omega
    · rw [hkdfLoop, if_neg hlt]
      rw [hkdfChain_length] at hlt
      rw [Nat.max_eq_left (by omega)]

/-- For a request beyond `255` blocks, the loop reaches block index 256
and fails on `bytes([256])`. -/
theorem hkdfLoop_fail (prk info : List Nat) (len : Nat) (hlen : 8160 < len) :
    ∀ d k, k + d = 255 →
      hkdfLoop prk info len (hkdfChain prk info k) (hkdfT prk info k) (k + 1) =
        none := by
  intro d
  induction d with
  | zero =>
    intro k hk
    rw [hkdfLoop, if_pos (by rw [hkdfChain_length]; omega)]
    rw [show pyByte (k + 1) = none from by
      simp only [pyByte]
      rw [if_neg (by omega)]]
  | succ d ih =>
    intro k hk
    rw [hkdfLoop, if_pos (by rw [hkdfChain_length]; omega)]
    rw [show pyByte (k + 1) = some [k + 1] from by
      simp only [pyByte]
      rw [if_pos (by omega)]]
    show hkdfLoop prk info len (hkdfChain prk info (k + 1))
      (hkdfT prk info (k + 1)) (k + 1 + 1) = none
    exact ih (k + 1) (by omega)

/-- On the `bytes()`-representable domain (`length ≤ 8160`),
`hkdf_sha256` returns the truncated spec chain. -/
theorem hkdf_eq_chain_take (ikm salt info : List Nat) (len : Nat)
    (h : len ≤ 8160) :
    hkdf_sha256 ikm salt info len =
      some ((hkdfChain (hmacSha256 salt ikm) info ((len + 31) / 32)).take len) := by
  show (hkdfLoop (hmacSha256 salt ikm) info len [] [] 1).map _ = _
  have h0 := hkdfLoop_eq_chain (hmacSha256 salt ikm) info len (by omega)
    ((len + 31) / 32) 0 (by omega)
  rw [show hkdfChain (hmacSha256 salt ikm) info 0 = [] from rfl,
    show hkdfT (hmacSha256 salt ikm) info 0 = [] from rfl] at h0
  rw [h0, Nat.max_eq_right (by omega)]
  rfl

/-- Beyond the `bytes()`-representable domain, `hkdf_sha256` raises. -/
theorem hkdf_fail (ikm salt info : List Nat) (len : Nat) (h : 8160 < len) :
    hkdf_sha256 ikm salt info len = none := by
  show (hkdfLoop (hmacSha256 salt ikm) info len [] [] 1).map _ = _
  have h0 := hkdfLoop_fail (hmacSha256 salt ikm) info len h 255 0 (by omega)
  rw [show hkdfChain (hmacSha256 salt ikm) info 0 = [] from rfl,
    show hkdfT (hmacSha256 salt ikm) info 0 = [] from rfl] at h0
  rw [h0]
  rfl

/-- C3, counterexample.  The claim quantifies over every positive
length, but at length `8161` the expansion loop needs block index 256
and `bytes([256])` raises `ValueError`: the function raises instead of
returning the first 8161 bytes of the expansion. -/
theorem c3_counterexample :
    (0 : Nat) < 8161 ∧ hkdf_sha256 [] [] [] 8161 = none :=
  ⟨by decide, hkdf_fail [] [] [] 8161 (by decide)⟩

/-- C3, amended.  For every ikm, salt, info and positive length up to
`255 · 32 = 8160` bytes (the largest request `bytes([block_index])`
admits, which is also the RFC 5869 bound), `hkdf_sha256` returns the
first `length` bytes of the spec's chain `T(1) || … || T(⌈length/32⌉)`
computed from `prk = HMAC-SHA256(salt, ikm)`; it is a pure function
(hence deterministic), and for `length > 32` the chain comprises at
least two expansion rounds.  For `length ≥ 8161` the function raises
`ValueError` instead of producing output. -/
theorem c3_amended (ikm salt info : List Nat) (len : Nat) (h : len ≤ 8160) :
    hkdf_sha256 ikm salt info len =
      some ((hkdfChain (hmacSha256 salt ikm) info ((len + 31) / 32)).take len) ∧
    (32 < len → 2 ≤ (len + 31) / 32) := by
  constructor
  · exact hkdf_eq_chain_take ikm salt info len h
  · intro hgt
    omega

/-- C3 amended witness at `length = 48 > 32`. -/
theorem c3_witness :
    (48 : Nat) ≤ 8160 ∧ 32 < 48 ∧
    (hkdf_sha256 [1] [2] [3] 48 =
      some ((hkdfChain (hmacSha256 [2] [1]) [3] ((48 + 31) / 32)).take 48) ∧
      2 ≤ (48 + 31) / 32) :=
  ⟨by decide, by decide,
    (c3_amended [1] [2] [3] 48 (by decide)).1,
    (c3_amended [1] [2] [3] 48 (by decide)).2 (by decide)⟩

/-- The chain for more blocks extends the chain for fewer. -/
theorem hkdfChain_prefix (prk info : List Nat) (a j : Nat) :
    ∃ s, hkdfChain prk info (a + j) = hkdfChain prk info a ++ s := by
  induction j with
  | zero => exact ⟨[], by simp⟩
  | succ j ih =>
    obtain ⟨s, hs⟩ := ih
    exact ⟨s ++ hkdfT prk info (a + j + 1), by
      show hkdfChain prk info (a + j) ++ hkdfT prk info (a + j + 1) = _
      rw [hs, List.append_assoc]⟩

/-- C10, counterexample.  The claim quantifies over all `L1 ≤ L2`, but
at `L1 = 0, L2 = 8161` there is no `L2`-byte output to take a prefix
of: the length-0 call returns the empty byte string while the
length-8161 call raises `ValueError`. -/
theorem c10_counterexample :
    (0 : Nat) ≤ 8161 ∧
    hkdf_sha256 [] [] [] 0 = some [] ∧
    hkdf_sha256 [] [] [] 8161 = none ∧
    hkdf_sha256 [] [] [] 0 ≠
      (hkdf_sha256 [] [] [] 8161).map fun o => o.take 0 := by
  have h0 : hkdf_sha256 [] [] [] 0 = some [] := by
    rw [hkdf_eq_chain_take [] [] [] 0 (by decide)]
    rfl
  have h1 : hkdf_sha256 [] [] [] 8161 = none :=
    hkdf_fail [] [] [] 8161 (by decide)
  refine ⟨by decide, h0, h1, ?_⟩
  rw [h0, h1]
  decide

/-- C10, amended.  `hkdf_sha256` is prefix-monotone in the requested
length on the domain where it returns at all: for `L1 ≤ L2 ≤ 8160` the
`L1`-byte output is the first `L1` bytes of the `L2`-byte output, and
the output for length 0 is the empty byte string; for lengths beyond
8160 the function raises `ValueError` and produces no output. -/
theorem c10_amended (ikm salt info : List Nat) (L1 L2 : Nat)
    (h12 : L1 ≤ L2) (h2 : L2 ≤ 8160) :
    hkdf_sha256 ikm salt info L1 =
      ((hkdf_sha256 ikm salt info L2).map fun o => o.take L1) ∧
    hkdf_sha256 ikm salt info 0 = some [] := by
  constructor
  · rw [hkdf_eq_chain_take ikm salt info L1 (by omega),
      hkdf_eq_chain_take ikm salt info L2 h2]
    show some _ = some _
    congr 1
    show List.take L1 (hkdfChain (hmacSha256 salt ikm) info ((L1 + 31) / 32)) =
      List.take L1 (List.take L2 (hkdfChain (hmacSha256 salt ikm) info ((L2 + 31) / 32)))
    rw [List.take_take, Nat.min_eq_left h12]
    obtain ⟨s, hs⟩ := hkdfChain_prefix (hmacSha256 salt ikm) info
      ((L1 + 31) / 32) ((L2 + 31) / 32 - (L1 + 31) / 32)
    have hm : (L1 + 31) / 32 + ((L2 + 31) / 32 - (L1 + 31) / 32) =
        (L2 + 31) / 32 := by omega
    rw [hm] at hs
    rw [hs, List.take_append_of_le_length (by rw [hkdfChain_length]; omega)]
  · rw [hkdf_eq_chain_take ikm salt info 0 (by omega)]
    rfl

/-- C10 amended witness at `L1 = 5 ≤ 40 = L2 ≤ 8160`. -/
theorem c10_witness :
    (5 : Nat) ≤ 40 ∧ (40 : Nat) ≤ 8160 ∧
    (hkdf_sha256 [7] [8] [9] 5 =
      ((hkdf_sha256 [7] [8] [9] 40).map fun o => o.take 5) ∧
      hkdf_sha256 [7] [8] [9] 0 = some []) :=
  ⟨by decide, by decide, c10_amended [7] [8] [9] 5 40 (by decide) (by decide)⟩

end TinyCam

namespace TinyCam

/-! ## Base64 normalisation (`safe_b64decode`, both sources)

`safe_b64decode` (`tinycam.py` lines 27–43, `stream_downloader.py`
22–38) strips the string, unescapes the five JSON escape sequences
`\u002B \u003d \u003D \u002f \u002F`, removes `' '`, `'\n'`, `'\r'`,
maps the URL-safe alphabet `- _` to `+ /`, restores `=` padding to a
multiple of four, and calls `base64.b64decode`.

Strings are modelled as lists of code points.  `str.strip()` is
modelled for the ASCII range (the characters occurring in any
protocol-relevant input); `str.replace` is the standard leftmost,
non-overlapping global replacement.  `base64.b64decode` (with
`validate=False`, its default) is the lenient CPython `binascii`
decoder: characters outside the standard alphabet are discarded before
the padding check; a pad sequence completing a quad of 2 or 3 data
characters ends the decode; leftover data characters at the end are a
padding error (checked against CPython 3.11 on all the shapes used
below). -/

/-- ASCII whitespace as stripped by Python `str.strip()`. -/
def isPyWs (c : Nat) : Bool :=
  c = 32 || c = 9 || c = 10 || c = 13 || c = 11 || c = 12

/-- `s.strip()` on the ASCII range: remove leading and trailing
whitespace. -/
def pyStrip (s : List Nat) : List Nat :=
  ((s.dropWhile isPyWs).reverse.dropWhile isPyWs).reverse

/-- `str.replace` for a six-character pattern `a1…a6` and a
single-character replacement `r`: leftmost, non-overlapping, global. -/
def replace6 (a1 a2 a3 a4 a5 a6 r : Nat) : List Nat → List Nat
  | c1 :: c2 :: c3 :: c4 :: c5 :: c6 :: s =>
    if c1 = a1 ∧ c2 = a2 ∧ c3 = a3 ∧ c4 = a4 ∧ c5 = a5 ∧ c6 = a6 then
      r :: replace6 a1 a2 a3 a4 a5 a6 r s
    else c1 :: replace6 a1 a2 a3 a4 a5 a6 r (c2 :: c3 :: c4 :: c5 :: c6 :: s)
  | s => s

/-- `str.replace` for a one-character pattern `a` and replacement `r`. -/
def replace1 (a : Nat) (r : List Nat) : List Nat → List Nat
  | [] => []
  | c :: s => if c = a then r ++ replace1 a r s else c :: replace1 a r s

/-- The five escape replacements of `safe_b64decode`, in source order:
`\u002B → +`, `\u003d → =`, `\u003D → =`, `\u002f → /`,
`\u002F → /` (code points 92 117 48 48 …). -/
def stage5 (t : List Nat) : List Nat :=
  replace6 92 117 48 48 50 70 47 (replace6 92 117 48 48 50 102 47
    (replace6 92 117 48 48 51 68 61 (replace6 92 117 48 48 51 100 61
      (replace6 92 117 48 48 50 66 43 t))))

/-- The whitespace removals of `safe_b64decode`:
`' ' → ''`, `'\n' → ''`, `'\r' → ''`. -/
def stageWs (t : List Nat) : List Nat :=
  replace1 13 [] (replace1 10 [] (replace1 32 [] t))

/-- The URL-safe alphabet mapping of `safe_b64decode`:
`- → +`, `_ → /`. -/
def stageUrl (t : List Nat) : List Nat :=
  replace1 95 [47] (replace1 45 [43] t)

/-- All the replacement phases of `safe_b64decode`, in source order. -/
def normalizeCore (t : List Nat) : List Nat :=
  stageUrl (stageWs (stage5 t))

/-- The full normalisation of `safe_b64decode`: strip, replace, and
restore `=` padding to a multiple of four. -/
def normalizeB64 (s : List Nat) : List Nat :=
  let t := normalizeCore (pyStrip s)
  if t.length % 4 = 0 then t else t ++ List.replicate (4 - t.length % 4) 61

/-- `binascii`'s base64 value table: the standard alphabet only
(`base64.b64decode` is called without `altchars`). -/
def b64Val (c : Nat) : Option Nat :=
  if 65 ≤ c ∧ c ≤ 90 then some (c - 65)
  else if 97 ≤ c ∧ c ≤ 122 then some (c - 97 + 26)
  else if 48 ≤ c ∧ c ≤ 57 then some (c - 48 + 52)
  else if c = 43 then some 62
  else if c = 47 then some 63
  else none

/-- The lenient `binascii.a2b_base64` loop (CPython, `strict_mode`
off): state is the position in the current quad, the pending bits, the
running pad count and the bytes emitted so far (most recent first).
A `=` completing a quad of 2 or 3 data characters ends the decode;
other `=` are counted (at quad position ≥ 2) or ignored; characters
outside the alphabet are discarded; a data character resets the pad
count.  At the end, leftover data characters are an error. -/
def a2bLoop : List Nat → Nat → Nat → Nat → List Nat → Except String (List Nat)
  | [], quadPos, _, _, acc =>
    if quadPos = 1 then
      .error "invalid number of data characters"
    else if quadPos = 0 then .ok acc.reverse
    else .error "incorrect padding"
  | c :: s, quadPos, leftchar, pads, acc =>
    if c = 61 then
      if 2 ≤ quadPos ∧ 4 ≤ quadPos + pads + 1 then .ok acc.reverse
      else if 2 ≤ quadPos then a2bLoop s quadPos leftchar (pads + 1) acc
      else a2bLoop s quadPos leftchar pads acc
    else
      match b64Val c with
      | none => a2bLoop s quadPos leftchar pads acc
      | some v =>
        match quadPos with
        | 0 => a2bLoop s 1 v 0 acc
        | 1 => a2bLoop s 2 (v % 16) 0 ((leftchar * 4 + v / 16) :: acc)
        | 2 => a2bLoop s 3 (v % 4) 0 ((leftchar * 16 + v / 4) :: acc)
        | _ => a2bLoop s 0 0 0 ((leftchar * 64 + v) :: acc)

/-- `base64.b64decode` (lenient mode) on a code-point list. -/
def pyB64Decode (s : List Nat) : Except String (List Nat) :=
  a2bLoop s 0 0 0 []

/-- `safe_b64decode` from the sources: normalise, then
`base64.b64decode`; a decode exception propagates as `.error`. -/
def safe_b64decode (s : List Nat) : Except String (List Nat) :=
  pyB64Decode (normalizeB64 s)

/-- The standard base64 alphabet, by 6-bit value. -/
def b64Char (v : Nat) : Nat :=
  if v < 26 then 65 + v
  else if v < 52 then 97 + (v - 26)
  else if v < 62 then 48 + (v - 52)
  else if v = 62 then 43
  else 47

/-- The canonically padded, standard-alphabet base64 encoding of a byte
string (the claim's reference point, `base64.b64encode`). -/
def canonEncode : List Nat → List Nat
  | b1 :: b2 :: b3 :: rest =>
    b64Char (b1 / 4) :: b64Char (b1 % 4 * 16 + b2 / 16) ::
      b64Char (b2 % 16 * 4 + b3 / 64) :: b64Char (b3 % 64) :: canonEncode rest
  | [b1, b2] => [b64Char (b1 / 4), b64Char (b1 % 4 * 16 + b2 / 16),
      b64Char (b2 % 16 * 4), 61]
  | [b1] => [b64Char (b1 / 4), b64Char (b1 % 4 * 16), 61, 61]
  | [] => []

/-- Whitespace the normaliser removes anywhere: space, LF, CR. -/
def isWsIns (c : Nat) : Bool :=
  c = 32 || c = 10 || c = 13

/-- May the single character `c` stand for the canonical encoding
character `e`?  Either `c = e`, or the URL-safe `-` for `+` and `_`
for `/`. -/
def chunkSingle (e c : Nat) : Bool :=
  c = e || (e = 43 && c = 45) || (e = 47 && c = 95)

/-- May the JSON escape `\u00‹c5›‹c6›` stand for the canonical
character `e`?  `\u002B` for `+`; `\u003d`/`\u003D` for `=`;
`\u002f`/`\u002F` for `/`. -/
def escMatch (e c5 c6 : Nat) : Bool :=
  (e = 43 && c5 = 50 && c6 = 66) ||
  (e = 61 && c5 = 51 && (c6 = 100 || c6 = 68)) ||
  (e = 47 && c5 = 50 && (c6 = 102 || c6 = 70))

/-- Does the (stripped) string `s` spell out the canonical encoding
`E`, token by token: canonical characters written plainly, URL-safe or
JSON-escaped, with space/LF/CR freely between tokens, and with any
suffix of the trailing `=` padding dropped? -/
def variantRest : List Nat → List Nat → Bool
  | E, [] => E.all fun e => e == 61
  | E, c :: s =>
    if isWsIns c then variantRest E s
    else
      match E with
      | [] => false
      | e :: E2 =>
        match c, s with
        | 92, 117 :: 48 :: 48 :: c5 :: c6 :: s2 => escMatch e c5 c6 && variantRest E2 s2
        | c, s => chunkSingle e c && variantRest E2 s

/-- Is `s` a tolerated spelling of the canonical encoding `E`:
arbitrary surrounding ASCII whitespace (removed by `strip()`), and a
token-by-token spelling of `E` with space/LF/CR between tokens and
optional padding? -/
def variantOf (E s : List Nat) : Bool :=
  variantRest E (pyStrip s)

end TinyCam

namespace TinyCam

/-! ### C4: counterexample -/

/-- C4, counterexample.  `"Q\tQ"` is a valid base64 encoding of the
byte `65` (`"QQ=="` with the padding dropped) carrying one embedded
whitespace character, a tab.  The claim says `safe_b64decode` returns
the bytes of the canonical form; the canonical form decodes to `[65]`,
but `safe_b64decode` raises `binascii.Error: Incorrect padding`: the
normaliser removes only space, LF and CR, so the tab survives into the
padding computation (`len("Q\tQ") % 4 = 3` appends one `=`), and the
decoder then discards the tab and is left with two data characters and
a single pad. -/
theorem c4_counterexample :
    canonEncode [65] = [81, 81, 61, 61] ∧
    pyB64Decode (canonEncode [65]) = .ok [65] ∧
    safe_b64decode [81, 9, 81] = .error "incorrect padding" := by
  refine ⟨rfl, rfl, rfl⟩

end TinyCam

namespace TinyCam

/-! ### C4: how the normaliser acts on one spelling token

`replace6`/`replace1` distribute over a token when no pattern can match
across its boundary: every pattern starts with `\` (92), and in a
variant spelling `\` occurs only as the head of a complete escape
token. -/

/-- A character other than the pattern head passes a 6-character
replacement untouched. -/
theorem replace6_cons_ne {a1 a2 a3 a4 a5 a6 r c : Nat} {s : List Nat}
    (h : c ≠ a1) :
    replace6 a1 a2 a3 a4 a5 a6 r (c :: s) =
      c :: replace6 a1 a2 a3 a4 a5 a6 r s := by
  match s with
  | [] => rfl
  | [x1] => rfl
  | [x1, x2] => rfl
  | [x1, x2, x3] => rfl
  | [x1, x2, x3, x4] => rfl
  | x1 :: x2 :: x3 :: x4 :: x5 :: rest =>
    simp only [replace6]
    rw [if_neg fun hc => h hc.1]

/-- A full pattern occurrence is replaced. -/
theorem replace6_cons_hit (a1 a2 a3 a4 a5 a6 r : Nat) (s : List Nat) :
    replace6 a1 a2 a3 a4 a5 a6 r (a1 :: a2 :: a3 :: a4 :: a5 :: a6 :: s) =
      r :: replace6 a1 a2 a3 a4 a5 a6 r s := by
  simp [replace6]

/-- A six-character window that is not the pattern steps by one
character. -/
theorem replace6_cons_6ne {a1 a2 a3 a4 a5 a6 r c1 c2 c3 c4 c5 c6 : Nat}
    {s : List Nat}
    (h : ¬(c1 = a1 ∧ c2 = a2 ∧ c3 = a3 ∧ c4 = a4 ∧ c5 = a5 ∧ c6 = a6)) :
    replace6 a1 a2 a3 a4 a5 a6 r (c1 :: c2 :: c3 :: c4 :: c5 :: c6 :: s) =
      c1 :: replace6 a1 a2 a3 a4 a5 a6 r (c2 :: c3 :: c4 :: c5 :: c6 :: s) := by
  simp only [replace6]
  rw [if_neg h]

/-- A character other than the pattern passes a 1-character
replacement. -/
theorem replace1_cons_ne {a : Nat} {r : List Nat} {c : Nat} {s : List Nat}
    (h : c ≠ a) : replace1 a r (c :: s) = c :: replace1 a r s := by
  simp only [replace1]
  rw [if_neg h]

/-- A pattern character is replaced. -/
theorem replace1_cons_hit (a : Nat) (r s : List Nat) :
    replace1 a r (a :: s) = r ++ replace1 a r s := by
  simp [replace1]

/-- An escape token whose two distinguishing characters do not match
this pattern passes through whole. -/
theorem replace6_esc_pass {a5v a6v r x5 x6 : Nat} (s : List Nat)
    (hne : ¬(x5 = a5v ∧ x6 = a6v)) (h5 : x5 ≠ 92) (h6 : x6 ≠ 92) :
    replace6 92 117 48 48 a5v a6v r (92 :: 117 :: 48 :: 48 :: x5 :: x6 :: s) =
      92 :: 117 :: 48 :: 48 :: x5 :: x6 :: replace6 92 117 48 48 a5v a6v r s := by
  rw [replace6_cons_6ne (by tauto)]
  rw [replace6_cons_ne (show (117 : Nat) ≠ 92 by decide)]
  rw [replace6_cons_ne (show (48 : Nat) ≠ 92 by decide)]
  rw [replace6_cons_ne (show (48 : Nat) ≠ 92 by decide)]
  rw [replace6_cons_ne h5]
  rw [replace6_cons_ne h6]

/-- Any non-backslash character passes all five escape replacements. -/
theorem stage5_cons_ne {c : Nat} (h : c ≠ 92) (s : List Nat) :
    stage5 (c :: s) = c :: stage5 s := by
  unfold stage5
  rw [replace6_cons_ne h, replace6_cons_ne h, replace6_cons_ne h,
    replace6_cons_ne h, replace6_cons_ne h]

/-- A non-whitespace character passes the whitespace removals. -/
theorem stageWs_pass {c : Nat} (h32 : c ≠ 32) (h10 : c ≠ 10) (h13 : c ≠ 13)
    (s : List Nat) : stageWs (c :: s) = c :: stageWs s := by
  unfold stageWs
  rw [replace1_cons_ne h32, replace1_cons_ne h10, replace1_cons_ne h13]

/-- Space, LF and CR are removed by the whitespace stage. -/
theorem stageWs_drop {c : Nat} (h : isWsIns c = true) (s : List Nat) :
    stageWs (c :: s) = stageWs s := by
  have hc : c = 32 ∨ c = 10 ∨ c = 13 := by
    have := h
    simp only [isWsIns, Bool.or_eq_true, decide_eq_true_eq] at this
    tauto
  unfold stageWs
  rcases hc with rfl | rfl | rfl
  · rw [replace1_cons_hit, List.nil_append]
  · rw [replace1_cons_ne (by decide), replace1_cons_hit, List.nil_append]
  · rw [replace1_cons_ne (by decide), replace1_cons_ne (by decide),
      replace1_cons_hit, List.nil_append]

/-- A character that is neither `-` nor `_` passes the URL-safe
mapping. -/
theorem stageUrl_pass {c : Nat} (h45 : c ≠ 45) (h95 : c ≠ 95) (s : List Nat) :
    stageUrl (c :: s) = c :: stageUrl s := by
  unfold stageUrl
  rw [replace1_cons_ne h45, replace1_cons_ne h95]

/-- `-` becomes `+`. -/
theorem stageUrl_45 (s : List Nat) : stageUrl (45 :: s) = 43 :: stageUrl s := by
  unfold stageUrl
  rw [replace1_cons_hit, List.singleton_append,
    replace1_cons_ne (show (43 : Nat) ≠ 95 by decide)]

/-- `_` becomes `/`. -/
theorem stageUrl_95 (s : List Nat) : stageUrl (95 :: s) = 47 :: stageUrl s := by
  unfold stageUrl
  rw [replace1_cons_ne (show (95 : Nat) ≠ 45 by decide),
    replace1_cons_hit, List.singleton_append]

/-- The escape `\u002B` resolves to `+`. -/
theorem stage5_esc_plus (s : List Nat) :
    stage5 (92 :: 117 :: 48 :: 48 :: 50 :: 66 :: s) = 43 :: stage5 s := by
  unfold stage5
  rw [replace6_cons_hit]
  rw [replace6_cons_ne (show (43 : Nat) ≠ 92 by decide),
    replace6_cons_ne (show (43 : Nat) ≠ 92 by decide),
    replace6_cons_ne (show (43 : Nat) ≠ 92 by decide),
    replace6_cons_ne (show (43 : Nat) ≠ 92 by decide)]

/-- The escape `\u003d` resolves to `=`. -/
theorem stage5_esc_eq_lower (s : List Nat) :
    stage5 (92 :: 117 :: 48 :: 48 :: 51 :: 100 :: s) = 61 :: stage5 s := by
  unfold stage5
  rw [replace6_esc_pass _ (by decide) (by decide) (by decide)]
  rw [replace6_cons_hit]
  rw [replace6_cons_ne (show (61 : Nat) ≠ 92 by decide),
    replace6_cons_ne (show (61 : Nat) ≠ 92 by decide),
    replace6_cons_ne (show (61 : Nat) ≠ 92 by decide)]

/-- The escape `\u003D` resolves to `=`. -/
theorem stage5_esc_eq_upper (s : List Nat) :
    stage5 (92 :: 117 :: 48 :: 48 :: 51 :: 68 :: s) = 61 :: stage5 s := by
  unfold stage5
  rw [replace6_esc_pass _ (by decide) (by decide) (by decide)]
  rw [replace6_esc_pass _ (by decide) (by decide) (by decide)]
  rw [replace6_cons_hit]
  rw [replace6_cons_ne (show (61 : Nat) ≠ 92 by decide),
    replace6_cons_ne (show (61 : Nat) ≠ 92 by decide)]

/-- The escape `\u002f` resolves to `/`. -/
theorem stage5_esc_slash_lower (s : List Nat) :
    stage5 (92 :: 117 :: 48 :: 48 :: 50 :: 102 :: s) = 47 :: stage5 s := by
  unfold stage5
  rw [replace6_esc_pass _ (by decide) (by decide) (by decide)]
  rw [replace6_esc_pass _ (by decide) (by decide) (by decide)]
  rw [replace6_esc_pass _ (by decide) (by decide) (by decide)]
  rw [replace6_cons_hit]
  rw [replace6_cons_ne (show (47 : Nat) ≠ 92 by decide)]

/-- The escape `\u002F` resolves to `/`. -/
theorem stage5_esc_slash_upper (s : List Nat) :
    stage5 (92 :: 117 :: 48 :: 48 :: 50 :: 70 :: s) = 47 :: stage5 s := by
  unfold stage5
  rw [replace6_esc_pass _ (by decide) (by decide) (by decide)]
  rw [replace6_esc_pass _ (by decide) (by decide) (by decide)]
  rw [replace6_esc_pass _ (by decide) (by decide) (by decide)]
  rw [replace6_esc_pass _ (by decide) (by decide) (by decide)]
  rw [replace6_cons_hit]

end TinyCam

namespace TinyCam

/-! ### C4: unfolding lemmas for the spelling matcher, and good
canonical characters -/

/-- Matcher on the empty string: only padding may remain unspelled. -/
theorem variantRest_nil_right {E : List Nat} :
    variantRest E [] = E.all (fun e => e == 61) := by
  rw [variantRest.eq_def]

/-- Matcher on a space/LF/CR: skip it. -/
theorem variantRest_cons_ws {E : List Nat} {c : Nat} {s : List Nat}
    (h : isWsIns c = true) : variantRest E (c :: s) = variantRest E s := by
  rw [variantRest.eq_def]
  simp only [h, if_true]

/-- Matcher with no canonical characters left, at a non-whitespace
character: reject. -/
theorem variantRest_cons_nilE {c : Nat} {s : List Nat}
    (hws : ¬ isWsIns c = true) : variantRest [] (c :: s) = false := by
  rw [variantRest.eq_def]
  simp [hws]

/-- Matcher at an escape-shaped token. -/
theorem variantRest_cons_esc {w : Nat} {ws : List Nat} {c5 c6 : Nat}
    {s2 : List Nat} :
    variantRest (w :: ws) (92 :: 117 :: 48 :: 48 :: c5 :: c6 :: s2) =
      (escMatch w c5 c6 && variantRest ws s2) := by
  rw [variantRest.eq_def]
  norm_num [isWsIns]

/-- Matcher at a non-whitespace character that does not head an
escape-shaped token. -/
theorem variantRest_cons_single {w : Nat} {ws : List Nat} {c : Nat}
    {s : List Nat}
    (hx : ∀ (c5 c6 : Nat) (s2 : List Nat), c = 92 →
      s = 117 :: 48 :: 48 :: c5 :: c6 :: s2 → False)
    (hws : ¬ isWsIns c = true) :
    variantRest (w :: ws) (c :: s) = (chunkSingle w c && variantRest ws s) := by
  rw [variantRest.eq_def]
  simp only [hws, if_false]
  split
  · simp_all
  · rfl

/-- A character that may appear in a canonical encoding: a standard
alphabet character or the padding `=`. -/
def goodE (e : Nat) : Bool :=
  (b64Val e).isSome || e == 61

/-- A good canonical character is none of the characters the
normaliser treats specially. -/
theorem goodE_facts {e : Nat} (h : goodE e = true) :
    e ≠ 92 ∧ e ≠ 32 ∧ e ≠ 10 ∧ e ≠ 13 ∧ e ≠ 45 ∧ e ≠ 95 := by
  simp only [goodE, Bool.or_eq_true, beq_iff_eq, Option.isSome_iff_exists] at h
  rcases h with ⟨v, hv⟩ | rfl
  · simp only [b64Val] at hv
    split_ifs at hv <;> omega
  · omega

end TinyCam

namespace TinyCam

/-! ### C4: each spelling token normalises to its canonical character -/

/-- The empty string normalises to the empty string. -/
theorem normCore_nil : normalizeCore [] = [] := rfl

/-- An inserted space/LF/CR is removed by the replacement phases. -/
theorem normCore_ws {c : Nat} (h : isWsIns c = true) (s : List Nat) :
    normalizeCore (c :: s) = normalizeCore s := by
  have hc : c = 32 ∨ c = 10 ∨ c = 13 := by
    have := h
    simp only [isWsIns, Bool.or_eq_true, decide_eq_true_eq] at this
    tauto
  have h92 : c ≠ 92 := by rcases hc with rfl | rfl | rfl <;> decide
  unfold normalizeCore
  rw [stage5_cons_ne h92, stageWs_drop h]

/-- A single-character token (plain canonical or URL-safe alias)
normalises to its canonical character. -/
theorem normCore_single {e c : Nat} (hg : goodE e = true)
    (hc : chunkSingle e c = true) (s : List Nat) :
    normalizeCore (c :: s) = e :: normalizeCore s := by
  obtain ⟨h92, h32, h10, h13, h45, h95⟩ := goodE_facts hg
  have hcs : c = e ∨ (e = 43 ∧ c = 45) ∨ (e = 47 ∧ c = 95) := by
    simp only [chunkSingle, Bool.or_eq_true, Bool.and_eq_true,
      decide_eq_true_eq] at hc
    tauto
  unfold normalizeCore
  rcases hcs with rfl | ⟨rfl, rfl⟩ | ⟨rfl, rfl⟩
  · rw [stage5_cons_ne h92, stageWs_pass h32 h10 h13, stageUrl_pass h45 h95]
  · rw [stage5_cons_ne (by decide),
      stageWs_pass (by decide) (by decide) (by decide), stageUrl_45]
  · rw [stage5_cons_ne (by decide),
      stageWs_pass (by decide) (by decide) (by decide), stageUrl_95]

/-- An escape token normalises to its canonical character. -/
theorem normCore_esc {e c5 c6 : Nat} (hm : escMatch e c5 c6 = true)
    (s : List Nat) :
    normalizeCore (92 :: 117 :: 48 :: 48 :: c5 :: c6 :: s) =
      e :: normalizeCore s := by
  have hcs : (e = 43 ∧ c5 = 50 ∧ c6 = 66) ∨
      (e = 61 ∧ c5 = 51 ∧ (c6 = 100 ∨ c6 = 68)) ∨
      (e = 47 ∧ c5 = 50 ∧ (c6 = 102 ∨ c6 = 70)) := by
    simp only [escMatch, Bool.or_eq_true, Bool.and_eq_true,
      decide_eq_true_eq] at hm
    tauto
  unfold normalizeCore
  rcases hcs with ⟨rfl, rfl, rfl⟩ | ⟨rfl, rfl, rfl | rfl⟩ | ⟨rfl, rfl, rfl | rfl⟩
  · rw [stage5_esc_plus, stageWs_pass (by decide) (by decide) (by decide),
      stageUrl_pass (by decide) (by decide)]
  · rw [stage5_esc_eq_lower, stageWs_pass (by decide) (by decide) (by decide),
      stageUrl_pass (by decide) (by decide)]
  · rw [stage5_esc_eq_upper, stageWs_pass (by decide) (by decide) (by decide),
      stageUrl_pass (by decide) (by decide)]
  · rw [stage5_esc_slash_lower, stageWs_pass (by decide) (by decide) (by decide),
      stageUrl_pass (by decide) (by decide)]
  · rw [stage5_esc_slash_upper, stageWs_pass (by decide) (by decide) (by decide),
      stageUrl_pass (by decide) (by decide)]

/-- A spelling accepted by the matcher normalises to the canonical
encoding with some suffix of its `=` padding missing. -/
theorem variantRest_norm (E m : List Nat) :
    (∀ e ∈ E, goodE e = true) → variantRest E m = true →
    ∃ E1 E2, E = E1 ++ E2 ∧ (∀ x ∈ E2, x = 61) ∧ normalizeCore m = E1 := by
  induction E, m using variantRest.induct with
  | case1 E =>
    intro _ hv
    rw [variantRest_nil_right] at hv
    refine ⟨[], E, rfl, fun x hx => ?_, normCore_nil⟩
    have := List.all_eq_true.mp hv x hx
    simpa using this
  | case2 E c s hws ih =>
    intro hE hv
    rw [variantRest_cons_ws hws] at hv
    obtain ⟨E1, E2, h1, h2, h3⟩ := ih hE hv
    exact ⟨E1, E2, h1, h2, by rw [normCore_ws hws, h3]⟩
  | case3 c s hws =>
    intro _ hv
    rw [variantRest_cons_nilE hws] at hv
    exact absurd hv (by simp)
  | case4 w ws c5 c6 s2 hws92 ih =>
    intro hE hv
    rw [variantRest_cons_esc, Bool.and_eq_true] at hv
    obtain ⟨E1, E2, h1, h2, h3⟩ :=
      ih (fun e he => hE e (List.mem_cons_of_mem _ he)) hv.2
    refine ⟨w :: E1, E2, by rw [h1]; rfl, h2, ?_⟩
    rw [normCore_esc hv.1, h3]
  | case5 w ws c s hx hws ih =>
    intro hE hv
    rw [variantRest_cons_single hx hws, Bool.and_eq_true] at hv
    obtain ⟨E1, E2, h1, h2, h3⟩ :=
      ih (fun e he => hE e (List.mem_cons_of_mem _ he)) hv.2
    refine ⟨w :: E1, E2, by rw [h1]; rfl, h2, ?_⟩
    rw [normCore_single (hE w (List.mem_cons_self _ _)) hv.1, h3]

end TinyCam

namespace TinyCam

/-! ### C4: canonical encodings and the lenient decoder -/

/-- Alphabet characters are never the padding character. -/
theorem b64Char_ne_61 (v : Nat) : b64Char v ≠ 61 := by
  unfold b64Char
  split_ifs <;> omega

/-- Decoding inverts encoding on 6-bit values. -/
theorem b64Val_b64Char {v : Nat} (h : v < 64) : b64Val (b64Char v) = some v := by
  interval_cases v <;> rfl

/-- Alphabet characters are good canonical characters. -/
theorem goodE_b64Char {v : Nat} (h : v < 64) : goodE (b64Char v) = true := by
  simp [goodE, b64Val_b64Char h]

/-- The padding character is a good canonical character. -/
theorem goodE_61 : goodE 61 = true := rfl

/-- Every character of a canonical encoding is good. -/
theorem canonEncode_goodE (B : List Nat) (hB : ∀ b ∈ B, b < 256) :
    ∀ e ∈ canonEncode B, goodE e = true := by
  induction B using canonEncode.induct with
  | case1 b1 b2 b3 rest ih =>
    have hb1 : b1 < 256 := hB b1 (by simp)
    have hb2 : b2 < 256 := hB b2 (by simp)
    have hb3 : b3 < 256 := hB b3 (by simp)
    intro e he
    rw [show canonEncode (b1 :: b2 :: b3 :: rest) =
      b64Char (b1 / 4) :: b64Char (b1 % 4 * 16 + b2 / 16) ::
        b64Char (b2 % 16 * 4 + b3 / 64) :: b64Char (b3 % 64) ::
        canonEncode rest from rfl] at he
    simp only [List.mem_cons] at he
    rcases he with rfl | rfl | rfl | rfl | he
    · exact goodE_b64Char (by omega)
    · exact goodE_b64Char (by omega)
    · exact goodE_b64Char (by omega)
    · exact goodE_b64Char (by omega)
    · exact ih (fun b hb => hB b (by simp [hb])) e he
  | case2 b1 b2 =>
    have hb1 : b1 < 256 := hB b1 (by simp)
    have hb2 : b2 < 256 := hB b2 (by simp)
    intro e he
    rw [show canonEncode [b1, b2] = [b64Char (b1 / 4),
      b64Char (b1 % 4 * 16 + b2 / 16), b64Char (b2 % 16 * 4), 61] from rfl] at he
    simp only [List.mem_cons] at he
    rcases he with rfl | rfl | rfl | rfl | he
    · exact goodE_b64Char (by omega)
    · exact goodE_b64Char (by omega)
    · exact goodE_b64Char (by omega)
    · exact goodE_61
    · simp at he
  | case3 b1 =>
    have hb1 : b1 < 256 := hB b1 (by simp)
    intro e he
    rw [show canonEncode [b1] = [b64Char (b1 / 4), b64Char (b1 % 4 * 16),
      61, 61] from rfl] at he
    simp only [List.mem_cons] at he
    rcases he with rfl | rfl | rfl | rfl | he
    · exact goodE_b64Char (by omega)
    · exact goodE_b64Char (by omega)
    · exact goodE_61
    · exact goodE_61
    · simp at he
  | case4 =>
    intro e he
    simp [canonEncode] at he

/-- A canonical encoding is padding-free alphabet characters followed by
at most two `=`, with total length a multiple of four. -/
theorem canonEncode_struct (B : List Nat) :
    ∃ D k, canonEncode B = D ++ List.replicate k 61 ∧ k ≤ 2 ∧
      (∀ x ∈ D, x ≠ 61) ∧ (D.length + k) % 4 = 0 := by
  induction B using canonEncode.induct with
  | case1 b1 b2 b3 rest ih =>
    obtain ⟨D, k, hDk, hk, hD, hmod⟩ := ih
    refine ⟨b64Char (b1 / 4) :: b64Char (b1 % 4 * 16 + b2 / 16) ::
      b64Char (b2 % 16 * 4 + b3 / 64) :: b64Char (b3 % 64) :: D, k, ?_, hk, ?_, ?_⟩
    · show _ :: _ :: _ :: _ :: canonEncode rest = _
      rw [hDk]
      rfl
    · intro x hx
      simp only [List.mem_cons] at hx
      rcases hx with rfl | rfl | rfl | rfl | hx
      · exact b64Char_ne_61 _
      · exact b64Char_ne_61 _
      · exact b64Char_ne_61 _
      · exact b64Char_ne_61 _
      · exact hD x hx
    · simp only [List.length_cons]
      omega
  | case2 b1 b2 =>
    refine ⟨[b64Char (b1 / 4), b64Char (b1 % 4 * 16 + b2 / 16),
      b64Char (b2 % 16 * 4)], 1, rfl, by omega, ?_, by simp⟩
    intro x hx
    simp only [List.mem_cons] at hx
    rcases hx with rfl | rfl | rfl | hx
    · exact b64Char_ne_61 _
    · exact b64Char_ne_61 _
    · exact b64Char_ne_61 _
    · simp at hx
  | case3 b1 =>
    refine ⟨[b64Char (b1 / 4), b64Char (b1 % 4 * 16)], 2, rfl, by omega, ?_, by simp⟩
    intro x hx
    simp only [List.mem_cons] at hx
    rcases hx with rfl | rfl | hx
    · exact b64Char_ne_61 _
    · exact b64Char_ne_61 _
    · simp at hx
  | case4 =>
    exact ⟨[], 0, rfl, by omega, by simp, by simp⟩

/-- The padding character has no alphabet value. -/
theorem b64Val_ne_61 {c v : Nat} (hv : b64Val c = some v) : c ≠ 61 := by
  intro h
  subst h
  simp [b64Val] at hv

/-- Decoder step: a data character at quad position 0. -/
theorem a2bLoop_data0 {c v : Nat} (hv : b64Val c = some v) (s : List Nat)
    (l p : Nat) (acc : List Nat) :
    a2bLoop (c :: s) 0 l p acc = a2bLoop s 1 v 0 acc := by
  simp only [a2bLoop]
  rw [if_neg (b64Val_ne_61 hv), hv]

/-- Decoder step: a data character at quad position 1 emits a byte. -/
theorem a2bLoop_data1 {c v : Nat} (hv : b64Val c = some v) (s : List Nat)
    (l p : Nat) (acc : List Nat) :
    a2bLoop (c :: s) 1 l p acc = a2bLoop s 2 (v % 16) 0 ((l * 4 + v / 16) :: acc) := by
  simp only [a2bLoop]
  rw [if_neg (b64Val_ne_61 hv), hv]

/-- Decoder step: a data character at quad position 2 emits a byte. -/
theorem a2bLoop_data2 {c v : Nat} (hv : b64Val c = some v) (s : List Nat)
    (l p : Nat) (acc : List Nat) :
    a2bLoop (c :: s) 2 l p acc = a2bLoop s 3 (v % 4) 0 ((l * 16 + v / 4) :: acc) := by
  simp only [a2bLoop]
  rw [if_neg (b64Val_ne_61 hv), hv]

/-- Decoder step: a data character at quad position 3 emits a byte and
completes the quad. -/
theorem a2bLoop_data3 {c v : Nat} (hv : b64Val c = some v) (s : List Nat)
    (l p : Nat) (acc : List Nat) :
    a2bLoop (c :: s) 3 l p acc = a2bLoop s 0 0 0 ((l * 64 + v) :: acc) := by
  simp only [a2bLoop]
  rw [if_neg (b64Val_ne_61 hv), hv]

/-- Decoder step: a `=` completing a 2- or 3-character quad ends the
decode. -/
theorem a2bLoop_pad_done (q : Nat) (h2 : 2 ≤ q) (s : List Nat) (l p : Nat)
    (acc : List Nat) (hq4 : 4 ≤ q + p + 1) :
    a2bLoop (61 :: s) q l p acc = .ok acc.reverse := by
  simp only [a2bLoop]
  rw [if_pos trivial, if_pos ⟨h2, hq4⟩]

/-- Decoder step: a `=` at quad position ≥ 2 that does not yet complete
the quad increments the pad count. -/
theorem a2bLoop_pad_inc (q : Nat) (h2 : 2 ≤ q) (s : List Nat) (l p : Nat)
    (acc : List Nat) (hq4 : ¬ 4 ≤ q + p + 1) :
    a2bLoop (61 :: s) q l p acc = a2bLoop s q l (p + 1) acc := by
  simp only [a2bLoop]
  rw [if_pos trivial, if_neg (by tauto), if_pos h2]

/-- Decoder termination on the empty input at quad position 0. -/
theorem a2bLoop_nil (l p : Nat) (acc : List Nat) :
    a2bLoop [] 0 l p acc = .ok acc.reverse := rfl

end TinyCam

namespace TinyCam

/-! ### C4: the lenient decoder inverts the canonical encoding -/

/-- Running the lenient decoder over a canonical encoding appends the
original bytes to the output. -/
theorem a2bLoop_canonEncode (B : List Nat) :
    (∀ b ∈ B, b < 256) →
    ∀ acc, a2bLoop (canonEncode B) 0 0 0 acc = .ok (acc.reverse ++ B) := by
  induction B using canonEncode.induct with
  | case1 b1 b2 b3 rest ih =>
    intro hB acc
    have hb1 : b1 < 256 := hB b1 (by simp)
    have hb2 : b2 < 256 := hB b2 (by simp)
    have hb3 : b3 < 256 := hB b3 (by simp)
    show a2bLoop (b64Char (b1 / 4) :: b64Char (b1 % 4 * 16 + b2 / 16) ::
      b64Char (b2 % 16 * 4 + b3 / 64) :: b64Char (b3 % 64) ::
      canonEncode rest) 0 0 0 acc = _
    rw [a2bLoop_data0 (b64Val_b64Char (by omega)),
      a2bLoop_data1 (b64Val_b64Char (by omega)),
      a2bLoop_data2 (b64Val_b64Char (by omega)),
      a2bLoop_data3 (b64Val_b64Char (by omega))]
    have e1 : b1 / 4 * 4 + (b1 % 4 * 16 + b2 / 16) / 16 = b1 := by omega
    have e2 : (b1 % 4 * 16 + b2 / 16) % 16 * 16 + (b2 % 16 * 4 + b3 / 64) / 4 = b2 := by
      omega
    have e3 : (b2 % 16 * 4 + b3 / 64) % 4 * 64 + b3 % 64 = b3 := by omega
    rw [e1, e2, e3, ih (fun b hb => hB b (by simp [hb])) (b3 :: b2 :: b1 :: acc)]
    simp
  | case2 b1 b2 =>
    intro hB acc
    have hb1 : b1 < 256 := hB b1 (by simp)
    have hb2 : b2 < 256 := hB b2 (by simp)
    show a2bLoop [b64Char (b1 / 4), b64Char (b1 % 4 * 16 + b2 / 16),
      b64Char (b2 % 16 * 4), 61] 0 0 0 acc = _
    rw [a2bLoop_data0 (b64Val_b64Char (by omega)),
      a2bLoop_data1 (b64Val_b64Char (by omega)),
      a2bLoop_data2 (b64Val_b64Char (by omega))]
    have e1 : b1 / 4 * 4 + (b1 % 4 * 16 + b2 / 16) / 16 = b1 := by omega
    have e2 : (b1 % 4 * 16 + b2 / 16) % 16 * 16 + b2 % 16 * 4 / 4 = b2 := by omega
    rw [e1, e2, a2bLoop_pad_done 3 (by omega) _ _ _ _ (by omega)]
    simp
  | case3 b1 =>
    intro hB acc
    have hb1 : b1 < 256 := hB b1 (by simp)
    show a2bLoop [b64Char (b1 / 4), b64Char (b1 % 4 * 16), 61, 61] 0 0 0 acc = _
    rw [a2bLoop_data0 (b64Val_b64Char (by omega)),
      a2bLoop_data1 (b64Val_b64Char (by omega))]
    have e1 : b1 / 4 * 4 + b1 % 4 * 16 / 16 = b1 := by omega
    rw [e1, a2bLoop_pad_inc 2 (by omega) _ _ _ _ (by omega),
      a2bLoop_pad_done 2 (by omega) _ _ _ _ (by omega)]
    simp
  | case4 =>
    intro hB acc
    show a2bLoop [] 0 0 0 acc = _
    rw [a2bLoop_nil]
    simp

/-- `base64.b64decode` of a canonical encoding returns the original
bytes. -/
theorem pyB64Decode_canonEncode (B : List Nat) (hB : ∀ b ∈ B, b < 256) :
    pyB64Decode (canonEncode B) = .ok B := by
  have h := a2bLoop_canonEncode B hB []
  simpa [pyB64Decode] using h

/-- An all-`=` suffix of `D ++ '='*k` with `D` padding-free has at most
`k` characters. -/
theorem all61_suffix_le {D : List Nat} {k : Nat} (hD : ∀ x ∈ D, x ≠ 61)
    {E1 E2 : List Nat} (hsplit : D ++ List.replicate k 61 = E1 ++ E2)
    (h2 : ∀ x ∈ E2, x = 61) : E2.length ≤ k := by
  by_contra hlt
  push_neg at hlt
  have hlen : D.length + k = E1.length + E2.length := by
    have := congrArg List.length hsplit
    simpa using this
  have hE1D : E1.length < D.length := by omega
  have hdrop := congrArg (List.drop E1.length) hsplit
  rw [List.drop_append_eq_append_drop, List.drop_left] at hdrop
  have hz : E1.length - D.length = 0 := by omega
  rw [hz, List.drop_zero] at hdrop
  cases hx : D.drop E1.length with
  | nil =>
    have := congrArg List.length hx
    simp at this
    omega
  | cons y ys =>
    have hyD : y ∈ D := List.drop_subset _ D (by rw [hx]; exact List.mem_cons_self _ _)
    have hyE : y ∈ E2 := by
      rw [← hdrop, hx]
      exact List.mem_cons_self _ _
    exact hD y hyD (h2 y hyE)

end TinyCam

namespace TinyCam

/-- C4, amended.  For every byte string `B` and every spelling `s` of
its canonically padded standard-alphabet encoding — canonical
characters written plainly, as URL-safe `-`/`_`, or as the JSON escapes
`\u002B`/`\u003d`/`\u003D`/`\u002f`/`\u002F`; any suffix of the
`=` padding dropped; space, LF or CR inserted between tokens; and
arbitrary ASCII whitespace around the whole string — `safe_b64decode`
returns exactly the bytes obtained by decoding the canonical form,
namely `B`.  (Embedded whitespace must be space, LF or CR: the
counterexample shows an embedded tab is fatal, so the claim's
"embedded whitespace" survives only in this restricted form.) -/
theorem c4_amended (B s : List Nat) (hB : ∀ b ∈ B, b < 256)
    (hv : variantOf (canonEncode B) s = true) :
    safe_b64decode s = pyB64Decode (canonEncode B) ∧
    pyB64Decode (canonEncode B) = .ok B := by
  refine ⟨?_, pyB64Decode_canonEncode B hB⟩
  obtain ⟨E1, E2, h1, h2, h3⟩ :=
    variantRest_norm (canonEncode B) (pyStrip s) (canonEncode_goodE B hB) hv
  obtain ⟨D, k, hDk, hk2, hD61, hmod⟩ := canonEncode_struct B
  have hle : E2.length ≤ k := all61_suffix_le hD61 (by rw [← hDk, h1]) h2
  have hE2 : E2 = List.replicate E2.length 61 := List.eq_replicate_of_mem h2
  have hlen : (canonEncode B).length = E1.length + E2.length := by
    rw [h1]
    simp
  have hlen4 : (canonEncode B).length % 4 = 0 := by
    rw [hDk]
    simpa using hmod
  show pyB64Decode (normalizeB64 s) = _
  simp only [normalizeB64, h3]
  by_cases h0 : E2.length = 0
  · rw [if_pos (by omega)]
    have hnil : E2 = [] := List.eq_nil_of_length_eq_zero h0
    rw [hnil, List.append_nil] at h1
    rw [← h1]
  · rw [if_neg (by omega)]
    have h42 : 4 - E1.length % 4 = E2.length := by omega
    rw [h42, ← hE2, ← h1]

/-- C4 amended witness: the bytes `[251, 239]` encode canonically as
`"++8="`; the spelling `"\t+- 8"` (tab in front, first `+`
JSON-escaped, second written URL-safe, a space, padding dropped)
decodes through `safe_b64decode` to the same bytes as the canonical
form. -/
theorem c4_amended_witness :
    (∀ b ∈ [251, 239], b < 256) ∧
    variantOf (canonEncode [251, 239]) [9, 92, 117, 48, 48, 50, 66, 45, 32, 56] = true ∧
    safe_b64decode [9, 92, 117, 48, 48, 50, 66, 45, 32, 56] =
      pyB64Decode (canonEncode [251, 239]) ∧
    pyB64Decode (canonEncode [251, 239]) = .ok [251, 239] :=
  ⟨by decide, by decide,
    (c4_amended [251, 239] [9, 92, 117, 48, 48, 50, 66, 45, 32, 56]
      (by decide) (by decide)).1,
    (c4_amended [251, 239] [9, 92, 117, 48, 48, 50, 66, 45, 32, 56]
      (by decide) (by decide)).2⟩

end TinyCam
